import Mathlib

/-!
Shallow embedding of the MyBookshelf repository (src/js/book-manager.js and
src/js/bookshelf.js) and verification of the frozen claims about it.

Modelling conventions:
* JS strings are `String`, JS numeric timestamps are `Int`, counts are `Nat`.
* A possibly-absent JS property is `Option _`; the JS falsiness test `!x` /
  `x || d` on strings treats `""` as falsy and on numbers treats `0` as falsy,
  embedded by `jsOrStr` / `jsOrInt` / `jsOrOptS` / `jsOrOptI` below.
* Methods that can `throw` return `Except String _`; every throw in the
  embedded methods happens before any field of `this.library` is assigned in
  the source, so an `.error` result stands for "exception raised, state
  unchanged".
* `Date.now()` is passed in as an explicit parameter `now`.
* `localStorage` is modelled as a function `String → Option Library` holding
  the JSON-parsed value per key; `JSON.parse (JSON.stringify x) = x` on these
  record types, so serialization is the identity in the model.
-/

/-- The JS string default operator `s || d` for a string already known to be
present: `""` is the only falsy string. -/
def jsOrStr (s d : String) : String := if s = "" then d else s

/-- The JS numeric default operator `n || d` (`0` is falsy; `NaN` does not
arise for the timestamp fields involved). -/
def jsOrInt (n d : Int) : Int := if n = 0 then d else n

/-- Embedding of `x || d` where `x` is a possibly-absent string property (absent and `""`
are both falsy). -/
def jsOrOptS (s : Option String) (d : String) : String :=
  match s with
  | some v => jsOrStr v d
  | none => d

/-- Embedding of `x || d` where `x` is a possibly-absent numeric property. -/
def jsOrOptI (n : Option Int) (d : Int) : Int :=
  match n with
  | some v => jsOrInt v d
  | none => d

/-- A record of `this.library.books`: the fields the code reads and writes
(`asin`, `title`, `authors`, `acquiredTime`, `readStatus`, `productImage`,
`source`, `addedDate`). -/
structure Book where
  asin : String
  title : String
  authors : String
  acquiredTime : Int
  readStatus : String
  productImage : String
  source : String
  addedDate : Int
deriving DecidableEq, Repr

/-- An entry of a parsed kindle.json input array: the fields the import code
reads from each incoming record. -/
structure KindleBook where
  asin : String
  title : String
  authors : String
  acquiredTime : Int
  readStatus : String
  productImage : String
deriving DecidableEq, Repr

/-- Embedding of `this.library.metadata`. -/
structure Metadata where
  lastImportDate : Option Int
  totalBooks : Nat
  manuallyAdded : Nat
  importedFromKindle : Nat
deriving DecidableEq, Repr

/-- Embedding of `this.library`. -/
structure Library where
  books : List Book
  metadata : Metadata
deriving DecidableEq, Repr

/-- Embedding of `{...kindleBook, source: 'kindle_import', addedDate: Date.now()}` —
the record pushed by both import paths. -/
def mkImportedBook (k : KindleBook) (now : Int) : Book :=
  { asin := k.asin
    title := k.title
    authors := k.authors
    acquiredTime := k.acquiredTime
    readStatus := k.readStatus
    productImage := k.productImage
    source := "kindle_import"
    addedDate := now }

/-- Embedding of `shouldUpdateBook(existingBook, newBook)` (book-manager.js:255-260):
`!==` on the four compared fields. -/
def shouldUpdateBook (existing : Book) (k : KindleBook) : Bool :=
  existing.acquiredTime ≠ k.acquiredTime ||
  existing.readStatus ≠ k.readStatus ||
  existing.title ≠ k.title ||
  existing.productImage ≠ k.productImage

/-- In-place mutation of the first book whose `asin` matches (`find` returns
the first match and `Object.assign` mutates that element). -/
def setFirstByAsin (books : List Book) (asin : String) (f : Book → Book) : List Book :=
  match books with
  | [] => []
  | b :: rest =>
      if b.asin = asin then f b :: rest else b :: setFirstByAsin rest asin f

/-- The `Object.assign(existingBook, {title, authors, acquiredTime,
readStatus, productImage})` of `importFromKindle` (book-manager.js:130-136). -/
def applyKindleUpdate (b : Book) (k : KindleBook) : Book :=
  { b with
    title := k.title
    authors := k.authors
    acquiredTime := k.acquiredTime
    readStatus := k.readStatus
    productImage := k.productImage }

/-- The counters of `importResults` (book-manager.js:117-122). -/
structure ImportResults where
  total : Nat
  added : Nat
  updated : Nat
  skipped : Nat
deriving DecidableEq, Repr

/-- One iteration of the `for (const kindleBook of kindleBooks)` loop of
`importFromKindle` (book-manager.js:124-151). -/
def importStep (books : List Book) (res : ImportResults) (k : KindleBook)
    (now : Int) : List Book × ImportResults :=
  match books.find? (fun b => b.asin = k.asin) with
  | some existing =>
      if shouldUpdateBook existing k then
        (setFirstByAsin books k.asin (fun b => applyKindleUpdate b k),
         { res with updated := res.updated + 1 })
      else
        (books, { res with skipped := res.skipped + 1 })
  | none =>
      (books ++ [mkImportedBook k now], { res with added := res.added + 1 })

/-- Loop of `importFromKindle` over the whole input array, from a given
books/results state. -/
def importLoop (st : List Book × ImportResults) (ks : List KindleBook)
    (now : Int) : List Book × ImportResults :=
  ks.foldl (fun st k => importStep st.1 st.2 k now) st

/-- Initial `importResults` object (book-manager.js:117-122). -/
def initImportResults (ks : List KindleBook) : ImportResults :=
  { total := ks.length, added := 0, updated := 0, skipped := 0 }

/-- Embedding of `importFromKindle` (book-manager.js:104-162) applied to an already-parsed
input array: the loop over `importStep`, then the metadata update, returning
the new library and `importResults`. -/
def importFromKindle (lib : Library) (kindleBooks : List KindleBook)
    (now : Int) : Library × ImportResults :=
  let st := importLoop (lib.books, initImportResults kindleBooks) kindleBooks now
  ({ books := st.1
     metadata :=
       { lib.metadata with
         lastImportDate := some now
         totalBooks := st.1.length
         importedFromKindle :=
           (st.1.filter (fun b => b.source = "kindle_import")).length } },
   st.2)

/-- Embedding of `importSelectedBooks` (book-manager.js:164-227).  The set `existingASINs`
is captured once before the loop and never extended, so exactly the selected
records whose asin is absent from the original books list are appended, in
order; the `try`/`catch` body cannot throw in the model, so `errorBooks` is
empty.  The whole `metadata` object is replaced. -/
def importSelectedBooks (lib : Library) (selectedBooks : List KindleBook)
    (now : Int) : Library :=
  let existingASINs := lib.books.map (fun b => b.asin)
  let books := lib.books ++
    (selectedBooks.filter (fun k => !existingASINs.contains k.asin)).map
      (fun k => mkImportedBook k now)
  { books := books
    metadata :=
      { totalBooks := books.length
        manuallyAdded := (books.filter (fun b => b.source = "manual_add")).length
        importedFromKindle :=
          (books.filter (fun b => b.source = "kindle_import")).length
        lastImportDate := some now } }

/-- The `updates` object passed to `updateBook`: any subset of book fields may
be present (`Object.assign` copies exactly the present ones). -/
structure BookUpdates where
  asin : Option String := none
  title : Option String := none
  authors : Option String := none
  acquiredTime : Option Int := none
  readStatus : Option String := none
  productImage : Option String := none
  source : Option String := none
  addedDate : Option Int := none
deriving DecidableEq, Repr

/-- Embedding of `Object.assign(book, updates)`. -/
def applyUpdates (b : Book) (u : BookUpdates) : Book :=
  { asin := u.asin.getD b.asin
    title := u.title.getD b.title
    authors := u.authors.getD b.authors
    acquiredTime := u.acquiredTime.getD b.acquiredTime
    readStatus := u.readStatus.getD b.readStatus
    productImage := u.productImage.getD b.productImage
    source := u.source.getD b.source
    addedDate := u.addedDate.getD b.addedDate }

/-- Embedding of `updateBook` (book-manager.js:388-397).  The class body defines
`updateBook` twice; in JS the later definition wins, so the effective method
is the second one: find by asin, throw if absent, `Object.assign` the found
record, save, return the record.  (It does not touch `metadata`.) -/
def updateBook (lib : Library) (asin : String) (updates : BookUpdates) :
    Except String (Library × Book) :=
  match lib.books.find? (fun b => b.asin = asin) with
  | none => Except.error "指定された書籍が見つかりません"
  | some b =>
      let b' := applyUpdates b updates
      Except.ok
        ({ lib with books := setFirstByAsin lib.books asin (fun c => applyUpdates c updates) },
         b')

/-- Whether a character is in the regex class `[A-Z0-9]`. -/
def asinClass (c : Char) : Bool :=
  ('A' ≤ c && c ≤ 'Z') || ('0' ≤ c && c ≤ '9')

/-- Embedding of `isValidASIN` (book-manager.js:402-404): `/^[A-Z0-9]{10}$/.test(asin)`. -/
def isValidASIN (asin : String) : Bool :=
  asin.toList.length = 10 && asin.toList.all asinClass

/-- The fields of the `bookData` argument of `addBookManually` that the method
reads; each may be absent. -/
structure BookData where
  asin : Option String := none
  title : Option String := none
  authors : Option String := none
  acquiredTime : Option Int := none
  readStatus : Option String := none
  productImage : Option String := none
deriving DecidableEq, Repr

/-- Embedding of `addBookManually` (book-manager.js:300-329).  Here `!asin` is true exactly for
an absent or empty asin, and `""` also fails `isValidASIN`, so the first throw
fires iff the asin is absent or fails the pattern.  Both throws precede every
assignment. -/
def addBookManually (lib : Library) (bookData : BookData) (now : Int) :
    Except String (Library × Book) :=
  match bookData.asin with
  | none => Except.error "有効なASINが必要です"
  | some asin =>
      if !isValidASIN asin then Except.error "有効なASINが必要です"
      else if (lib.books.find? (fun b => b.asin = asin)).isSome then
        Except.error "この本は既に蔵書に追加されています"
      else
        let newBook : Book :=
          { asin := asin
            title := jsOrOptS bookData.title "タイトル未設定"
            authors := jsOrOptS bookData.authors "著者未設定"
            acquiredTime := jsOrOptI bookData.acquiredTime now
            readStatus := jsOrOptS bookData.readStatus "UNKNOWN"
            productImage := jsOrOptS bookData.productImage
              ("https://images-na.ssl-images-amazon.com/images/P/" ++ asin ++ ".01.L.jpg")
            source := "manual_add"
            addedDate := now }
        let books := lib.books ++ [newBook]
        Except.ok
          ({ books := books
             metadata :=
               { lib.metadata with
                 totalBooks := books.length
                 manuallyAdded :=
                   (books.filter (fun b => b.source = "manual_add")).length } },
           newBook)

/-- Removal of the first book with the given asin
(`findIndex` + `splice(bookIndex, 1)`). -/
def removeFirstByAsin (books : List Book) (asin : String) : List Book :=
  match books with
  | [] => []
  | b :: rest => if b.asin = asin then rest else b :: removeFirstByAsin rest asin

/-- Embedding of `deleteBook` (book-manager.js:348-367): throw when no book has the asin;
on `hardDelete` splice it out and recount, otherwise only save. -/
def deleteBook (lib : Library) (asin : String) (hardDelete : Bool) :
    Except String Library :=
  if (lib.books.find? (fun b => b.asin = asin)).isNone then
    Except.error "指定された書籍が見つかりません"
  else if hardDelete then
    let books := removeFirstByAsin lib.books asin
    Except.ok
      { books := books
        metadata :=
          { lib.metadata with
            totalBooks := books.length
            manuallyAdded := (books.filter (fun b => b.source = "manual_add")).length
            importedFromKindle :=
              (books.filter (fun b => b.source = "kindle_import")).length } }
  else
    Except.ok lib

/-- Embedding of `clearAllBooks` (book-manager.js:372-383). -/
def clearAllBooks (_lib : Library) : Library :=
  { books := []
    metadata :=
      { totalBooks := 0
        manuallyAdded := 0
        importedFromKindle := 0
        lastImportDate := none } }

/-! ## Local storage mirroring (saveLibrary and the state-level operations) -/

/-- The localStorage key used by `saveLibrary` and `initialize`. -/
def lsKey : String := "virtualBookshelf_library"

/-- Embedding of `saveLibrary` (book-manager.js:421-427): store the (JSON-parsed view of
the) whole library under `lsKey`. -/
def saveLibrary (lib : Library) (storage : String → Option Library) :
    String → Option Library :=
  fun k => if k = lsKey then some lib else storage k

/-- The persistent state an operating BookManager touches: `this.library`
plus the localStorage contents. -/
structure AppState where
  lib : Library
  storage : String → Option Library

/-- State-level `addBookManually`: the method followed by its ending `saveLibrary` call; a throw
leaves the state untouched. -/
def addBookManuallyS (s : AppState) (bookData : BookData) (now : Int) :
    Except String (AppState × Book) :=
  match addBookManually s.lib bookData now with
  | Except.error e => Except.error e
  | Except.ok (lib', b) =>
      Except.ok ({ lib := lib', storage := saveLibrary lib' s.storage }, b)

/-- State-level `importFromKindle`: the method followed by its ending `saveLibrary` call. -/
def importFromKindleS (s : AppState) (kindleBooks : List KindleBook)
    (now : Int) : AppState × ImportResults :=
  let r := importFromKindle s.lib kindleBooks now
  ({ lib := r.1, storage := saveLibrary r.1 s.storage }, r.2)

/-- State-level `importSelectedBooks`: the method followed by its ending `saveLibrary` call. -/
def importSelectedBooksS (s : AppState) (selectedBooks : List KindleBook)
    (now : Int) : AppState :=
  let lib' := importSelectedBooks s.lib selectedBooks now
  { lib := lib', storage := saveLibrary lib' s.storage }

/-- State-level `updateBook`: the method followed by its ending `saveLibrary` call. -/
def updateBookS (s : AppState) (asin : String) (updates : BookUpdates) :
    Except String (AppState × Book) :=
  match updateBook s.lib asin updates with
  | Except.error e => Except.error e
  | Except.ok (lib', b) =>
      Except.ok ({ lib := lib', storage := saveLibrary lib' s.storage }, b)

/-- State-level `deleteBook`: the method followed by its ending `saveLibrary` call. -/
def deleteBookS (s : AppState) (asin : String) (hardDelete : Bool) :
    Except String AppState :=
  match deleteBook s.lib asin hardDelete with
  | Except.error e => Except.error e
  | Except.ok lib' =>
      Except.ok { lib := lib', storage := saveLibrary lib' s.storage }

/-- State-level `clearAllBooks`: the method followed by its ending `saveLibrary` call. -/
def clearAllBooksS (s : AppState) : AppState :=
  let lib' := clearAllBooks s.lib
  { lib := lib', storage := saveLibrary lib' s.storage }

/-! ## User annotations (bookshelf.js: saveNote, saveRating) -/

/-- An entry of `this.userData.notes`: `{ memo, rating }`. -/
structure Note where
  memo : String
  rating : Int
deriving DecidableEq, Repr

/-- Embedding of `saveNote` (bookshelf.js:920-926): initialize a missing entry to
`{memo: '', rating: 0}`, then set its `memo`. -/
def saveNote (notes : String → Option Note) (asin : String) (memo : String) :
    String → Option Note :=
  let base := (notes asin).getD { memo := "", rating := 0 }
  fun a => if a = asin then some { base with memo := memo } else notes a

/-- Embedding of `saveRating` (bookshelf.js:2047-2053): initialize a missing entry to
`{memo: '', rating: 0}`, then set its `rating` to the argument, unchecked. -/
def saveRating (notes : String → Option Note) (asin : String) (rating : Int) :
    String → Option Note :=
  let base := (notes asin).getD { memo := "", rating := 0 }
  fun a => if a = asin then some { base with rating := rating } else notes a

/-! ## Custom-order sorting in renderStandardView (bookshelf.js:470-505) -/

/-- Index of the first element satisfying `p`, if any. -/
def findIdxRec (p : α → Bool) : List α → Option Nat
  | [] => none
  | x :: xs => if p x then some 0 else (findIdxRec p xs).map (fun i => i + 1)

/-- Embedding of `customOrder.indexOf(asin)` as the code computes it: the index of the
first occurrence, or `-1`. -/
def jsIndexOf (l : List String) (s : String) : Int :=
  match findIdxRec (fun x => x = s) l with
  | some i => (i : Int)
  | none => -1

/-- The comparator passed to `booksToRender.sort` (bookshelf.js:479-487). -/
def customOrderCompare (customOrder : List String) (a b : Book) : Int :=
  let aIndex := jsIndexOf customOrder a.asin
  let bIndex := jsIndexOf customOrder b.asin
  if aIndex = -1 && bIndex = -1 then 0
  else if aIndex = -1 then 1
  else if bIndex = -1 then -1
  else aIndex - bIndex

/-- Predicate `compare(a, b) <= 0`: "a need not come after b". -/
def cmpLe (customOrder : List String) (a b : Book) : Bool :=
  customOrderCompare customOrder a b ≤ 0

/-- Stable insertion step: place `x` (an element occurring earlier in the
input) before the first `y` it need not follow. -/
def insertCmp (customOrder : List String) (x : Book) :
    List Book → List Book
  | [] => [x]
  | y :: ys =>
      if cmpLe customOrder x y then x :: y :: ys
      else y :: insertCmp customOrder x ys

/-- The `booksToRender.sort(comparator)` call of `renderStandardView`.
ECMAScript `Array.prototype.sort` guarantees a stable, comparator-consistent
result; `customOrderCompare` is induced by a total preorder (see
`cmpLe_eq_sortKey`), for which the stable sorted permutation is unique, and
a stable insertion sort computes it. -/
def sortCustom (customOrder : List String) : List Book → List Book
  | [] => []
  | x :: xs => insertCmp customOrder x (sortCustom customOrder xs)

/-- The sort key the comparator realizes: position in the custom order, with
books absent from the list keyed past every present book. -/
def sortKey (customOrder : List String) (b : Book) : Nat :=
  match findIdxRec (fun x => x = b.asin) customOrder with
  | some i => i
  | none => customOrder.length

/-! ## Drag-and-drop reordering (bookshelf.js:633-679) -/

/-- Embedding of `indexOf` + `splice(i, 1)`: drop the first occurrence, if any. -/
def removeFirstStr : List String → String → List String
  | [], _ => []
  | y :: ys, x => if y = x then ys else y :: removeFirstStr ys x

/-- Embedding of `indexOf(target)` + `splice(targetIndex, 0, dragged)` with the
`targetIndex === -1` fallback `push(dragged)`: insert `d` immediately before
the first occurrence of `t`, or at the end when `t` is absent. -/
def insertBeforeFirst : List String → String → String → List String
  | [], _, d => [d]
  | y :: ys, t, d =>
      if y = t then d :: y :: ys else y :: insertBeforeFirst ys t d

/-- Embedding of `reorderBooks(draggedASIN, targetASIN)` acting on the bookshelf's custom
order list (`this.userData.bookOrder[currentBookshelfId]`), with
`filteredASINs` the asins of `this.filteredBooks` used to seed an empty
list. -/
def reorderBooks (bookOrder filteredASINs : List String)
    (draggedASIN targetASIN : String) : List String :=
  let o0 := if bookOrder.isEmpty then filteredASINs else bookOrder
  let o1 := if o0.contains draggedASIN then o0 else o0 ++ [draggedASIN]
  let o2 := removeFirstStr o1 draggedASIN
  insertBeforeFirst o2 targetASIN draggedASIN

/-! ## Export (bookshelf.js:1821-1879) and the library.json branch of
initialize (book-manager.js:34-57) -/

/-- The per-book record `exportUnifiedData` writes into `books[asin]`
(bookshelf.js:1848-1858). -/
structure ExportBook where
  title : String
  authors : String
  acquiredTime : Int
  readStatus : String
  productImage : String
  source : String
  addedDate : Int
  memo : String
  rating : Int
deriving DecidableEq, Repr

/-- Embedding of `books[asin] = value`: a JS object assignment keeps the first position of
an existing key and overwrites its value, otherwise appends the key. -/
def objInsert (m : List (String × ExportBook)) (k : String) (v : ExportBook) :
    List (String × ExportBook) :=
  if m.any (fun p => p.1 = k) then
    m.map (fun p => if p.1 = k then (k, v) else p)
  else m ++ [(k, v)]

/-- The record built for one book by `exportUnifiedData`
(bookshelf.js:1848-1858), with its `||` defaults. -/
def exportBookOf (notes : String → Option Note) (now : Int) (b : Book) :
    ExportBook :=
  { title := jsOrStr b.title ""
    authors := jsOrStr b.authors ""
    acquiredTime := jsOrInt b.acquiredTime now
    readStatus := jsOrStr b.readStatus "UNREAD"
    productImage := jsOrStr b.productImage ""
    source := jsOrStr b.source "unknown"
    addedDate := jsOrInt b.addedDate now
    memo := jsOrOptS ((notes b.asin).map Note.memo) ""
    rating := jsOrOptI ((notes b.asin).map Note.rating) 0 }

/-- The `books` object `exportUnifiedData` builds (bookshelf.js:1842-1861):
each book with a truthy asin is written at key `asin`, in list order. -/
def exportBooks (books : List Book) (notes : String → Option Note)
    (now : Int) : List (String × ExportBook) :=
  books.foldl
    (fun m b => if b.asin = "" then m else objInsert m b.asin (exportBookOf notes now b))
    []

/-- The book list built by the `library.json` branch of
`BookManager.initialize` (book-manager.js:40-49).  The source recovers each
book's key with `Object.keys(libraryData.books).find(asin =>
libraryData.books[asin] === book)`; `===` compares object identity and
`JSON.parse` yields a distinct object per key, so each entry recovers exactly
its own key. -/
def booksFromLibraryJson (m : List (String × ExportBook)) : List Book :=
  m.map (fun p =>
    { asin := p.1
      title := p.2.title
      authors := p.2.authors
      acquiredTime := p.2.acquiredTime
      readStatus := p.2.readStatus
      productImage := p.2.productImage
      source := p.2.source
      addedDate := p.2.addedDate })

/-! ## extractASINFromUrl (book-manager.js:265-279) -/

/-- Whether `lit` occurs at the head of `s`. -/
def litAt : List Char → List Char → Bool
  | [], _ => true
  | _ :: _, [] => false
  | a :: as, b :: bs => a = b && litAt as bs

/-- The capture group `([A-Z0-9]{10})` matched at the head of `s`: the next
ten characters, provided there are ten and all lie in `[A-Z0-9]`. -/
def captureASIN (s : List Char) : Option (List Char) :=
  if (s.take 10).length = 10 && (s.take 10).all asinClass then
    some (s.take 10)
  else none

/-- Characters the regex `.` does not match (ECMAScript, no `s` flag): LF,
CR, LINE SEPARATOR (U+2028) and PARAGRAPH SEPARATOR (U+2029). -/
def jsDotExcluded (c : Char) : Bool :=
  c = '\n' || c = '\r' || c.val = 0x2028 || c.val = 0x2029

/-- Leftmost match of `/lit([A-Z0-9]{10})/`: at each start position the
literal must occur followed by the ten-character capture, else the scan
advances one character. -/
def matchLitASIN (lit : List Char) : List Char → Option (List Char)
  | [] => none
  | c :: rest =>
      if litAt lit (c :: rest) then
        match captureASIN ((c :: rest).drop lit.length) with
        | some a => some a
        | none => matchLitASIN lit rest
      else matchLitASIN lit rest

/-- The `.*\/dp\/([A-Z0-9]{10})` tail: a greedy `.*` prefers the latest
position where `/dp/` and the capture match, and may consume only characters
`.` matches. -/
def greedyDpScan : List Char → Option (List Char)
  | [] => none
  | c :: rest =>
      match (if jsDotExcluded c then none else greedyDpScan rest) with
      | some a => some a
      | none =>
          if litAt ['/', 'd', 'p', '/'] (c :: rest) then
            captureASIN ((c :: rest).drop 4)
          else none

/-- Leftmost match of `/lit.*\/dp\/([A-Z0-9]{10})/`. -/
def matchLitDotStarASIN (lit : List Char) : List Char → Option (List Char)
  | [] => none
  | c :: rest =>
      if litAt lit (c :: rest) then
        match greedyDpScan ((c :: rest).drop lit.length) with
        | some a => some a
        | none => matchLitDotStarASIN lit rest
      else matchLitDotStarASIN lit rest

/-- The `(?:\/|\?|$)` lookahead-free tail of the fifth pattern. -/
def slashQEnd : List Char → Bool
  | [] => true
  | d :: _ => d = '/' || d = '?'

/-- Leftmost match of the fifth pattern `/\/([A-Z0-9]{10})(?:\/|\?|$)/`. -/
def matchSlashASIN : List Char → Option (List Char)
  | [] => none
  | c :: rest =>
      match (if c = '/' then
               match captureASIN rest with
               | some a => if slashQEnd (rest.drop 10) then some a else none
               | none => none
             else none) with
      | some a => some a
      | none => matchSlashASIN rest

/-- Embedding of `extractASINFromUrl` (book-manager.js:265-279): try the five patterns in
order, returning the first capture, else null. -/
def extractASINFromUrl (url : String) : Option String :=
  let s := url.toList
  let r :=
    match matchLitASIN "amazon.co.jp/dp/".toList s with
    | some a => some a
    | none =>
      match matchLitDotStarASIN "amazon.co.jp/".toList s with
      | some a => some a
      | none =>
        match matchLitASIN "amazon.com/dp/".toList s with
        | some a => some a
        | none =>
          match matchLitDotStarASIN "amazon.com/".toList s with
          | some a => some a
          | none => matchSlashASIN s
  r.map (fun cs => String.mk cs)

/-! ## Shared invariant predicates and sample values -/

/-- The record-store key-uniqueness invariant of the spec's data model:
`asin` is unique within `books`. -/
def asinsNodup (lib : Library) : Prop :=
  (lib.books.map (fun b => b.asin)).Nodup

/-- Every stored annotation's rating lies in 0–5. -/
def RatingInRange (notes : String → Option Note) : Prop :=
  ∀ a n, notes a = some n → 0 ≤ n.rating ∧ n.rating ≤ 5

/-- Sample empty metadata. -/
def meta0 : Metadata :=
  { lastImportDate := none, totalBooks := 0, manuallyAdded := 0,
    importedFromKindle := 0 }

/-- Sample empty library. -/
def lib0 : Library := { books := [], metadata := meta0 }

/-- Sample incoming kindle record. -/
def k0 : KindleBook :=
  { asin := "AAAAAAAAAA", title := "t", authors := "a", acquiredTime := 1,
    readStatus := "UNKNOWN", productImage := "p" }

/-- Sample well-formed stored book (no falsy field). -/
def bookGood : Book :=
  { asin := "AAAAAAAAAA", title := "t", authors := "a", acquiredTime := 1,
    readStatus := "READ", productImage := "p", source := "manual_add",
    addedDate := 1 }

/-- Sample stored book whose `readStatus` is the empty string. -/
def bookBadRS : Book :=
  { asin := "AAAAAAAAAA", title := "t", authors := "a", acquiredTime := 1,
    readStatus := "", productImage := "p", source := "manual_add",
    addedDate := 1 }

/-- Sample library holding `bookGood`. -/
def lib2 : Library := { books := [bookGood], metadata := meta0 }

/-- Sample app state over the empty library with empty storage. -/
def st0 : AppState := { lib := lib0, storage := fun _ => none }

/-- Sample manual-add input. -/
def bd0 : BookData := { asin := some "AAAAAAAAAA" }

/-- The record `addBookManually lib0 bd0 3` builds. -/
def book1 : Book :=
  { asin := "AAAAAAAAAA", title := "タイトル未設定", authors := "著者未設定",
    acquiredTime := 3, readStatus := "UNKNOWN",
    productImage := "https://images-na.ssl-images-amazon.com/images/P/AAAAAAAAAA.01.L.jpg",
    source := "manual_add", addedDate := 3 }

/-- The library `addBookManually lib0 bd0 3` returns. -/
def lib1 : Library :=
  { books := [book1]
    metadata :=
      { lastImportDate := none, totalBooks := 1, manuallyAdded := 1,
        importedFromKindle := 0 } }

/-! ## Helper lemmas -/

lemma saveLibrary_get (lib : Library) (st : String → Option Library) :
    saveLibrary lib st lsKey = some lib := by
  simp [saveLibrary]

/-! ## Claim C5 -/

/-- Claim C5: every mutating record-store operation (addBookManually,
importFromKindle, importSelectedBooks, updateBook, deleteBook, clearAllBooks)
ends by writing the full library state under the key
'virtualBookshelf_library', so that after each (non-throwing) operation the
local-storage copy equals the in-memory library.  A throwing call performs no
mutation and no write, so it trivially preserves the mirror. -/
theorem claim_C5_storage_mirror (s : AppState) :
    (∀ bd now s' b, addBookManuallyS s bd now = Except.ok (s', b) →
        s'.storage lsKey = some s'.lib) ∧
    (∀ ks now, ((importFromKindleS s ks now).1).storage lsKey =
        some ((importFromKindleS s ks now).1).lib) ∧
    (∀ sel now, (importSelectedBooksS s sel now).storage lsKey =
        some (importSelectedBooksS s sel now).lib) ∧
    (∀ a u s' b, updateBookS s a u = Except.ok (s', b) →
        s'.storage lsKey = some s'.lib) ∧
    (∀ a hd s', deleteBookS s a hd = Except.ok s' →
        s'.storage lsKey = some s'.lib) ∧
    ((clearAllBooksS s).storage lsKey = some (clearAllBooksS s).lib) := by
  refine ⟨?_, ?_, ?_, ?_, ?_, ?_⟩
  · intro bd now s' b h
    unfold addBookManuallyS at h
    cases hb : addBookManually s.lib bd now with
    | error e => rw [hb] at h; cases h
    | ok p =>
        rw [hb] at h
        obtain ⟨lib', bk⟩ := p
        simp only [Except.ok.injEq, Prod.mk.injEq] at h
        obtain ⟨h1, _⟩ := h
        subst h1
        simp [saveLibrary]
  · intro ks now
    simp [importFromKindleS, saveLibrary]
  · intro sel now
    simp [importSelectedBooksS, saveLibrary]
  · intro a u s' b h
    unfold updateBookS at h
    cases hb : updateBook s.lib a u with
    | error e => rw [hb] at h; cases h
    | ok p =>
        rw [hb] at h
        obtain ⟨lib', bk⟩ := p
        simp only [Except.ok.injEq, Prod.mk.injEq] at h
        obtain ⟨h1, _⟩ := h
        subst h1
        simp [saveLibrary]
  · intro a hd s' h
    unfold deleteBookS at h
    cases hb : deleteBook s.lib a hd with
    | error e => rw [hb] at h; cases h
    | ok lib' =>
        rw [hb] at h
        simp only [Except.ok.injEq] at h
        subst h
        simp [saveLibrary]
  · simp [clearAllBooksS, saveLibrary]

/-- Witness for claim C5 at a concrete state and operation. -/
theorem claim_C5_witness :
    (clearAllBooksS st0).storage lsKey = some (clearAllBooksS st0).lib :=
  (claim_C5_storage_mirror st0).2.2.2.2.2

/-! ## Claim C7 -/

/-- Claim C7 counterexample: `saveRating` stores its rating argument
unchecked, so rating 6 — outside 0–5 — is stored verbatim. -/
theorem claim_C7_counterexample :
    saveRating (fun _ => none) "A" 6 "A" = some { memo := "", rating := 6 } ∧
    ¬ ((6 : Int) ≤ 5) := by
  constructor
  · rfl
  · decide

/-- Claim C7 as amended: provided the rating passed to `saveRating` lies in
0–5 (which every in-app call site guarantees: star clicks pass 1–5, the reset
button passes 0), both annotation writers keep every stored rating in 0–5;
`saveNote` initializes a missing annotation's rating to 0. -/
theorem claim_C7_amended (notes : String → Option Note) (h : RatingInRange notes)
    (asin : String) (rating : Int) (hr : 0 ≤ rating ∧ rating ≤ 5)
    (memo : String) :
    RatingInRange (saveRating notes asin rating) ∧
    RatingInRange (saveNote notes asin memo) := by
  constructor
  · intro a n ha
    simp only [saveRating] at ha
    by_cases hA : a = asin
    · rw [if_pos hA] at ha
      obtain rfl : _ = n := Option.some.injEq _ _ ▸ ha
      exact hr
    · rw [if_neg hA] at ha
      exact h a n ha
  · intro a n ha
    simp only [saveNote] at ha
    by_cases hA : a = asin
    · rw [if_pos hA] at ha
      obtain rfl : _ = n := Option.some.injEq _ _ ▸ ha
      cases hnb : notes asin with
      | none => simp [hnb]
      | some m =>
          simpa [hnb] using h asin m hnb
    · rw [if_neg hA] at ha
      exact h a n ha

/-- Witness for claim C7 (amended) at concrete inputs. -/
theorem claim_C7_witness :
    RatingInRange (saveRating (fun _ => none) "B" 4) ∧
    RatingInRange (saveNote (fun _ => none) "B" "m") :=
  claim_C7_amended (fun _ => none) (fun _ _ h => by cases h) "B" 4
    (by constructor <;> decide) "m"

/-! ## Claim C10 -/

lemma captureASIN_sound (s t : List Char) (h : captureASIN s = some t) :
    t.length = 10 ∧ t.all asinClass = true := by
  unfold captureASIN at h
  split at h
  · rename_i hc
    obtain rfl : s.take 10 = t := Option.some.injEq _ _ ▸ h
    simpa using hc
  · cases h

lemma matchLitASIN_sound (lit : List Char) :
    ∀ s a, matchLitASIN lit s = some a →
      a.length = 10 ∧ a.all asinClass = true := by
  intro s
  induction s with
  | nil => intro a h; simp [matchLitASIN] at h
  | cons c rest ih =>
      intro a h
      unfold matchLitASIN at h
      split at h
      · split at h
        · rename_i hcap
          obtain rfl : _ = a := Option.some.injEq _ _ ▸ h
          exact captureASIN_sound _ _ hcap
        · exact ih a h
      · exact ih a h

lemma greedyDpScan_sound :
    ∀ s a, greedyDpScan s = some a → a.length = 10 ∧ a.all asinClass = true := by
  intro s
  induction s with
  | nil => intro a h; simp [greedyDpScan] at h
  | cons c rest ih =>
      intro a h
      unfold greedyDpScan at h
      split at h
      · rename_i b heq
        rw [Option.some.injEq] at h
        subst h
        split at heq
        · cases heq
        · exact ih _ heq
      · split at h
        · exact captureASIN_sound _ _ h
        · cases h

lemma matchLitDotStarASIN_sound (lit : List Char) :
    ∀ s a, matchLitDotStarASIN lit s = some a →
      a.length = 10 ∧ a.all asinClass = true := by
  intro s
  induction s with
  | nil => intro a h; simp [matchLitDotStarASIN] at h
  | cons c rest ih =>
      intro a h
      unfold matchLitDotStarASIN at h
      split at h
      · split at h
        · rename_i hg
          obtain rfl : _ = a := Option.some.injEq _ _ ▸ h
          exact greedyDpScan_sound _ _ hg
        · exact ih a h
      · exact ih a h

lemma matchSlashASIN_sound :
    ∀ s a, matchSlashASIN s = some a → a.length = 10 ∧ a.all asinClass = true := by
  intro s
  induction s with
  | nil => intro a h; simp [matchSlashASIN] at h
  | cons c rest ih =>
      intro a h
      unfold matchSlashASIN at h
      split at h
      · rename_i b heq
        rw [Option.some.injEq] at h
        subst h
        split at heq
        · split at heq
          · rename_i hcap
            split at heq
            · rw [Option.some.injEq] at heq
              subst heq
              exact captureASIN_sound _ _ hcap
            · cases heq
          · cases heq
        · cases heq
      · exact ih a h

lemma isValidASIN_mk (cs : List Char) (h1 : cs.length = 10)
    (h2 : cs.all asinClass = true) : isValidASIN (String.mk cs) = true := by
  have ht : (String.mk cs).toList = cs := rfl
  unfold isValidASIN
  rw [ht]
  simp [h1, h2]

/-- Claim C10: for every input string url, extractASINFromUrl(url) returns
either null or a string accepted by isValidASIN — every non-null result
matches `^[A-Z0-9]{10}$`. -/
theorem claim_C10_extract_sound (url : String) (a : String)
    (h : extractASINFromUrl url = some a) : isValidASIN a = true := by
  unfold extractASINFromUrl at h
  rw [Option.map_eq_some'] at h
  obtain ⟨cs, hcs, rfl⟩ := h
  have hsound : cs.length = 10 ∧ cs.all asinClass = true := by
    split at hcs
    · rename_i hm
      obtain rfl : _ = cs := Option.some.injEq _ _ ▸ hcs
      exact matchLitASIN_sound _ _ _ hm
    · split at hcs
      · rename_i hm
        obtain rfl : _ = cs := Option.some.injEq _ _ ▸ hcs
        exact matchLitDotStarASIN_sound _ _ _ hm
      · split at hcs
        · rename_i hm
          obtain rfl : _ = cs := Option.some.injEq _ _ ▸ hcs
          exact matchLitASIN_sound _ _ _ hm
        · split at hcs
          · rename_i hm
            obtain rfl : _ = cs := Option.some.injEq _ _ ▸ hcs
            exact matchLitDotStarASIN_sound _ _ _ hm
          · exact matchSlashASIN_sound _ _ hcs
  exact isValidASIN_mk cs hsound.1 hsound.2

/-- Witness for claim C10 at a concrete URL. -/
theorem claim_C10_witness : isValidASIN "B000000001" = true :=
  claim_C10_extract_sound "https://amazon.co.jp/dp/B000000001" "B000000001"
    (by rfl)

/-! ## Claim C8 -/

lemma setFirstByAsin_length (l : List Book) (a : String) (f : Book → Book) :
    (setFirstByAsin l a f).length = l.length := by
  induction l with
  | nil => rfl
  | cons b rest ih =>
      unfold setFirstByAsin
      split <;> simp [ih]

lemma importStep_acc (books : List Book) (res : ImportResults) (k : KindleBook)
    (now : Int) :
    (importStep books res k now).2.total = res.total ∧
    (importStep books res k now).2.added + (importStep books res k now).2.updated +
        (importStep books res k now).2.skipped
      = res.added + res.updated + res.skipped + 1 ∧
    (importStep books res k now).1.length + res.added
      = books.length + (importStep books res k now).2.added := by
  unfold importStep
  cases hf : books.find? (fun b => b.asin = k.asin) with
  | none => simp; omega
  | some e =>
      cases hsu : shouldUpdateBook e k with
      | true => simp [hsu, setFirstByAsin_length]; omega
      | false => simp [hsu]; omega

lemma importLoop_acc (ks : List KindleBook) :
    ∀ (st : List Book × ImportResults) (now : Int),
    (importLoop st ks now).2.total = st.2.total ∧
    (importLoop st ks now).2.added + (importLoop st ks now).2.updated +
        (importLoop st ks now).2.skipped
      = st.2.added + st.2.updated + st.2.skipped + ks.length ∧
    (importLoop st ks now).1.length + st.2.added
      = st.1.length + (importLoop st ks now).2.added := by
  induction ks with
  | nil => intro st now; simp [importLoop]
  | cons k ks ih =>
      intro st now
      have hstep := importStep_acc st.1 st.2 k now
      have hunf : importLoop st (k :: ks) now =
          importLoop (importStep st.1 st.2 k now) ks now := by
        simp [importLoop]
      have hrec := ih (importStep st.1 st.2 k now) now
      rw [hunf]
      refine ⟨?_, ?_, ?_⟩ <;> (try simp only [List.length_cons]) <;> omega

lemma importFromKindle_snd (lib : Library) (ks : List KindleBook) (now : Int) :
    (importFromKindle lib ks now).2 =
      (importLoop (lib.books, initImportResults ks) ks now).2 := rfl

lemma importFromKindle_books (lib : Library) (ks : List KindleBook) (now : Int) :
    (importFromKindle lib ks now).1.books =
      (importLoop (lib.books, initImportResults ks) ks now).1 := rfl

/-- Claim C8: for every input list, the result returned by importFromKindle
satisfies added + updated + skipped = total = the number of input records,
and added equals the increase in the length of the books list caused by the
call. -/
theorem claim_C8_import_accounting (lib : Library) (ks : List KindleBook)
    (now : Int) :
    (importFromKindle lib ks now).2.added + (importFromKindle lib ks now).2.updated +
        (importFromKindle lib ks now).2.skipped = (importFromKindle lib ks now).2.total ∧
    (importFromKindle lib ks now).2.total = ks.length ∧
    (importFromKindle lib ks now).1.books.length =
        lib.books.length + (importFromKindle lib ks now).2.added := by
  obtain ⟨h1, h2, h3⟩ :=
    importLoop_acc ks (lib.books, initImportResults ks) now
  rw [importFromKindle_snd, importFromKindle_books]
  simp only [initImportResults] at h1 h2 h3 ⊢
  refine ⟨?_, ?_, ?_⟩ <;> omega

/-! ## Claim C9 -/

lemma find?_asin_isSome (l : List Book) (a : String) :
    (l.find? (fun b => b.asin = a)).isSome = true ↔
      a ∈ l.map (fun b => b.asin) := by
  rw [List.find?_isSome]
  constructor
  · rintro ⟨x, hx, hpx⟩
    simp only [decide_eq_true_eq] at hpx
    exact hpx ▸ List.mem_map_of_mem _ hx
  · intro hmem
    obtain ⟨x, hx, hax⟩ := List.mem_map.mp hmem
    exact ⟨x, hx, by simp [hax]⟩

/-- Claim C9: addBookManually throws exactly when the input's asin is missing,
fails the pattern `^[A-Z0-9]{10}$`, or already occurs in the books list (the
embedding returns `.error` without touching the state, matching the source
where both throws precede every assignment); when it succeeds it appends
exactly one record with source 'manual_add' and returns it. -/
theorem claim_C9_addBookManually_atomic (lib : Library) (bd : BookData)
    (now : Int) :
    ((∃ e, addBookManually lib bd now = Except.error e) ↔
      (bd.asin = none ∨ ∃ a, bd.asin = some a ∧
        (isValidASIN a = false ∨ a ∈ lib.books.map (fun b => b.asin)))) ∧
    (∀ lib' b, addBookManually lib bd now = Except.ok (lib', b) →
      lib'.books = lib.books ++ [b] ∧ b.source = "manual_add") := by
  cases hasin : bd.asin with
  | none =>
      refine ⟨⟨fun _ => Or.inl rfl, fun _ => ⟨"有効なASINが必要です", ?_⟩⟩, ?_⟩
      · simp [addBookManually, hasin]
      · intro lib' b h
        simp [addBookManually, hasin] at h
  | some a =>
      by_cases hv : isValidASIN a = true
      · by_cases hdup : a ∈ lib.books.map (fun b => b.asin)
        · have hf : (lib.books.find? (fun b => b.asin = a)).isSome = true :=
            (find?_asin_isSome _ _).mpr hdup
          refine ⟨⟨fun _ => Or.inr ⟨a, rfl, Or.inr hdup⟩,
            fun _ => ⟨"この本は既に蔵書に追加されています", ?_⟩⟩, ?_⟩
          · simp [addBookManually, hasin, hv, hf]
          · intro lib' b h
            simp [addBookManually, hasin, hv, hf] at h
        · have hf : (lib.books.find? (fun b => b.asin = a)).isSome = false := by
            rw [Bool.eq_false_iff]
            exact fun hc => hdup ((find?_asin_isSome _ _).mp hc)
          constructor
          · constructor
            · rintro ⟨e, he⟩
              simp [addBookManually, hasin, hv, hf] at he
            · rintro (hnone | ⟨a', ha', hbad⟩)
              · cases hnone
              · rw [Option.some.injEq] at ha'
                subst ha'
                rcases hbad with hbad | hbad
                · rw [hv] at hbad; cases hbad
                · exact absurd hbad hdup
          · intro lib' b h
            simp only [addBookManually, hasin, hv, Bool.not_true, hf,
              Bool.false_eq_true, if_false, ite_false, ite_true,
              Except.ok.injEq, Prod.mk.injEq] at h
            obtain ⟨h1, h2⟩ := h
            subst h1
            subst h2
            simp
      · have hv' : isValidASIN a = false := by
          rw [Bool.eq_false_iff]; exact hv
        refine ⟨⟨fun _ => Or.inr ⟨a, rfl, Or.inl hv'⟩,
          fun _ => ⟨"有効なASINが必要です", ?_⟩⟩, ?_⟩
        · simp [addBookManually, hasin, hv']
        · intro lib' b h
          simp [addBookManually, hasin, hv'] at h

/-- Witness for claim C9 at concrete inputs: the success case appends the
built record. -/
theorem claim_C9_witness :
    lib1.books = lib0.books ++ [book1] ∧ book1.source = "manual_add" :=
  (claim_C9_addBookManually_atomic lib0 bd0 3).2 lib1 book1 (by rfl)


/-! ## Shared lemmas for claims C1 and C2 -/

lemma setFirstByAsin_cons_pos (b : Book) (rest : List Book) (a : String)
    (f : Book → Book) (h : b.asin = a) :
    setFirstByAsin (b :: rest) a f = f b :: rest := by
  simp [setFirstByAsin, h]

lemma setFirstByAsin_cons_neg (b : Book) (rest : List Book) (a : String)
    (f : Book → Book) (h : ¬ b.asin = a) :
    setFirstByAsin (b :: rest) a f = b :: setFirstByAsin rest a f := by
  simp [setFirstByAsin, h]

lemma setFirstByAsin_map_asin (l : List Book) (a : String) (f : Book → Book)
    (hf : ∀ b, (f b).asin = b.asin) :
    (setFirstByAsin l a f).map (fun b => b.asin) =
      l.map (fun b => b.asin) := by
  induction l with
  | nil => rfl
  | cons b rest ih =>
      by_cases hba : b.asin = a
      · rw [setFirstByAsin_cons_pos b rest a f hba]
        simp [hf]
      · rw [setFirstByAsin_cons_neg b rest a f hba]
        simp [ih]

lemma applyKindleUpdate_asin (b : Book) (k : KindleBook) :
    (applyKindleUpdate b k).asin = b.asin := rfl

lemma applyKindleUpdate_source (b : Book) (k : KindleBook) :
    (applyKindleUpdate b k).source = b.source := rfl

lemma mem_setFirstByAsin (l : List Book) (a : String) (f : Book → Book) :
    ∀ b' ∈ setFirstByAsin l a f,
      b' ∈ l ∨ ∃ b ∈ l, b.asin = a ∧ b' = f b := by
  induction l with
  | nil => intro b' h; cases h
  | cons b rest ih =>
      intro b' hmem
      by_cases hba : b.asin = a
      · rw [setFirstByAsin_cons_pos b rest a f hba] at hmem
        rcases List.mem_cons.mp hmem with h | h
        · exact Or.inr ⟨b, List.mem_cons_self _ _, hba, h⟩
        · exact Or.inl (List.mem_cons_of_mem _ h)
      · rw [setFirstByAsin_cons_neg b rest a f hba] at hmem
        rcases List.mem_cons.mp hmem with h | h
        · exact Or.inl (h ▸ List.mem_cons_self _ _)
        · rcases ih b' h with h' | ⟨c, hc, hc0, hc'⟩
          · exact Or.inl (List.mem_cons_of_mem _ h')
          · exact Or.inr ⟨c, List.mem_cons_of_mem _ hc, hc0, hc'⟩

lemma mem_map_asin_setFirst (l : List Book) (a : String) (f : Book → Book)
    (x : String) (hx : x ∈ (setFirstByAsin l a f).map (fun b => b.asin)) :
    x ∈ l.map (fun b => b.asin) ∨ ∃ b ∈ l, b.asin = a ∧ x = (f b).asin := by
  obtain ⟨b', hb', rfl⟩ := List.mem_map.mp hx
  rcases mem_setFirstByAsin l a f b' hb' with h | ⟨b, hb, hba, rfl⟩
  · exact Or.inl (List.mem_map_of_mem _ h)
  · exact Or.inr ⟨b, hb, hba, rfl⟩

lemma nodup_append_singleton {α : Type} (l : List α) (x : α)
    (h : l.Nodup) (hx : x ∉ l) : (l ++ [x]).Nodup := by
  simp [List.nodup_append, h, hx]

lemma importStep_of_found (books : List Book) (res : ImportResults)
    (k : KindleBook) (now : Int) (e : Book)
    (hf : books.find? (fun b => b.asin = k.asin) = some e) :
    importStep books res k now =
      (if shouldUpdateBook e k = true then
        (setFirstByAsin books k.asin (fun b => applyKindleUpdate b k),
         { res with updated := res.updated + 1 })
       else (books, { res with skipped := res.skipped + 1 })) := by
  unfold importStep
  rw [hf]

lemma importStep_of_none (books : List Book) (res : ImportResults)
    (k : KindleBook) (now : Int)
    (hf : books.find? (fun b => b.asin = k.asin) = none) :
    importStep books res k now =
      (books ++ [mkImportedBook k now], { res with added := res.added + 1 }) := by
  unfold importStep
  rw [hf]

lemma importStep_map_asin_of_found (books : List Book) (res : ImportResults)
    (k : KindleBook) (now : Int) (e : Book)
    (hf : books.find? (fun b => b.asin = k.asin) = some e) :
    ((importStep books res k now).1).map (fun b => b.asin) =
      books.map (fun b => b.asin) := by
  rw [importStep_of_found books res k now e hf]
  by_cases hsu : shouldUpdateBook e k = true
  · rw [if_pos hsu]
    exact setFirstByAsin_map_asin _ _ _ (fun b => rfl)
  · rw [if_neg hsu]

lemma importStep_map_asin_of_none (books : List Book) (res : ImportResults)
    (k : KindleBook) (now : Int)
    (hf : books.find? (fun b => b.asin = k.asin) = none) :
    ((importStep books res k now).1).map (fun b => b.asin) =
      books.map (fun b => b.asin) ++ [k.asin] := by
  rw [importStep_of_none books res k now hf]
  simp [mkImportedBook]

lemma importStep_nodup (books : List Book) (res : ImportResults)
    (k : KindleBook) (now : Int)
    (h : (books.map (fun b => b.asin)).Nodup) :
    (((importStep books res k now).1).map (fun b => b.asin)).Nodup := by
  cases hf : books.find? (fun b => b.asin = k.asin) with
  | some e => rw [importStep_map_asin_of_found books res k now e hf]; exact h
  | none =>
      rw [importStep_map_asin_of_none books res k now hf]
      refine nodup_append_singleton _ _ h ?_
      intro hmem
      obtain ⟨b, hb, hba⟩ := List.mem_map.mp hmem
      have := List.find?_eq_none.mp hf b hb
      simp [hba] at this

lemma importStep_mem_asin_mono (books : List Book) (res : ImportResults)
    (k : KindleBook) (now : Int) (x : String)
    (hx : x ∈ books.map (fun b => b.asin)) :
    x ∈ ((importStep books res k now).1).map (fun b => b.asin) := by
  cases hf : books.find? (fun b => b.asin = k.asin) with
  | some e => rw [importStep_map_asin_of_found books res k now e hf]; exact hx
  | none =>
      rw [importStep_map_asin_of_none books res k now hf]
      exact List.mem_append_left _ hx

lemma importStep_adds_asin (books : List Book) (res : ImportResults)
    (k : KindleBook) (now : Int) :
    k.asin ∈ ((importStep books res k now).1).map (fun b => b.asin) := by
  cases hf : books.find? (fun b => b.asin = k.asin) with
  | some e =>
      rw [importStep_map_asin_of_found books res k now e hf]
      have he : e ∈ books := List.mem_of_find?_eq_some hf
      have heq : e.asin = k.asin := by simpa using List.find?_some hf
      exact heq ▸ List.mem_map_of_mem _ he
  | none =>
      rw [importStep_map_asin_of_none books res k now hf]
      exact List.mem_append_right _ (List.mem_singleton_self _)

lemma importLoop_cons (st : List Book × ImportResults) (k : KindleBook)
    (ks : List KindleBook) (now : Int) :
    importLoop st (k :: ks) now =
      importLoop (importStep st.1 st.2 k now) ks now := by
  simp [importLoop]

lemma importLoop_nodup (ks : List KindleBook) :
    ∀ (st : List Book × ImportResults) (now : Int),
    (st.1.map (fun b => b.asin)).Nodup →
    ((importLoop st ks now).1.map (fun b => b.asin)).Nodup := by
  induction ks with
  | nil => intro st now h; simpa [importLoop] using h
  | cons k ks ih =>
      intro st now h
      rw [importLoop_cons]
      exact ih _ now (importStep_nodup st.1 st.2 k now h)

lemma importLoop_mem_mono (ks : List KindleBook) :
    ∀ (st : List Book × ImportResults) (now : Int) (x : String),
    x ∈ st.1.map (fun b => b.asin) →
    x ∈ (importLoop st ks now).1.map (fun b => b.asin) := by
  induction ks with
  | nil => intro st now x h; simpa [importLoop] using h
  | cons k ks ih =>
      intro st now x h
      rw [importLoop_cons]
      exact ih _ now x (importStep_mem_asin_mono st.1 st.2 k now x h)

lemma importLoop_mem_of_input (ks : List KindleBook) :
    ∀ (st : List Book × ImportResults) (now : Int) (k : KindleBook),
    k ∈ ks → k.asin ∈ (importLoop st ks now).1.map (fun b => b.asin) := by
  induction ks with
  | nil => intro st now k h; cases h
  | cons k' ks ih =>
      intro st now k h
      rw [importLoop_cons]
      rcases List.mem_cons.mp h with h | h
      · subst h
        exact importLoop_mem_mono ks _ now k.asin
          (importStep_adds_asin st.1 st.2 k now)
      · exact ih _ now k h

lemma count_filter_asin_eq_one (l : List Book) (a : String)
    (hnd : (l.map (fun b => b.asin)).Nodup)
    (hmem : a ∈ l.map (fun b => b.asin)) :
    (l.filter (fun b => b.asin = a)).length = 1 := by
  induction l with
  | nil => cases hmem
  | cons b rest ih =>
      simp only [List.map_cons, List.nodup_cons] at hnd
      obtain ⟨hb, hr⟩ := hnd
      by_cases hba : b.asin = a
      · have hnone : rest.filter (fun b => b.asin = a) = [] := by
          rw [List.filter_eq_nil_iff]
          intro c hc hca
          simp only [decide_eq_true_eq] at hca
          exact hb (hba ▸ hca ▸ List.mem_map_of_mem _ hc)
        simp [List.filter_cons, hba, hnone]
      · have hmem' : a ∈ rest.map (fun b => b.asin) := by
          rw [List.map_cons, List.mem_cons] at hmem
          rcases hmem with h | h
          · exact absurd h.symm hba
          · exact h
        simp [List.filter_cons, hba, ih hr hmem']

lemma importStep_source_inv (origAsins : List String) (books : List Book)
    (res : ImportResults) (k : KindleBook) (now : Int)
    (h : ∀ b ∈ books, b.asin ∈ origAsins ∨ b.source = "kindle_import") :
    ∀ b ∈ (importStep books res k now).1,
      b.asin ∈ origAsins ∨ b.source = "kindle_import" := by
  intro b hb
  cases hf : books.find? (fun c => c.asin = k.asin) with
  | some e =>
      rw [importStep_of_found books res k now e hf] at hb
      by_cases hsu : shouldUpdateBook e k = true
      · rw [if_pos hsu] at hb
        rcases mem_setFirstByAsin _ _ _ b hb with hb' | ⟨c, hc, _, rfl⟩
        · exact h b hb'
        · rw [applyKindleUpdate_asin, applyKindleUpdate_source]
          exact h c hc
      · rw [if_neg hsu] at hb
        exact h b hb
  | none =>
      rw [importStep_of_none books res k now hf] at hb
      rcases List.mem_append.mp hb with hb' | hb'
      · exact h b hb'
      · rw [List.mem_singleton.mp hb']
        exact Or.inr rfl

lemma importLoop_source_inv (origAsins : List String) (ks : List KindleBook) :
    ∀ (st : List Book × ImportResults) (now : Int),
    (∀ b ∈ st.1, b.asin ∈ origAsins ∨ b.source = "kindle_import") →
    ∀ b ∈ (importLoop st ks now).1,
      b.asin ∈ origAsins ∨ b.source = "kindle_import" := by
  induction ks with
  | nil => intro st now h; simpa [importLoop] using h
  | cons k ks ih =>
      intro st now h
      rw [importLoop_cons]
      exact ih _ now (importStep_source_inv origAsins st.1 st.2 k now h)

lemma importSelectedBooks_books (lib : Library) (sel : List KindleBook)
    (now : Int) :
    (importSelectedBooks lib sel now).books =
      lib.books ++
        (sel.filter (fun k =>
          !(lib.books.map (fun b => b.asin)).contains k.asin)).map
          (fun k => mkImportedBook k now) := rfl

lemma updateBook_of_found (lib : Library) (a : String) (u : BookUpdates)
    (c : Book) (hf : lib.books.find? (fun b => b.asin = a) = some c) :
    updateBook lib a u =
      Except.ok
        ({ lib with
           books := setFirstByAsin lib.books a (fun x => applyUpdates x u) },
         applyUpdates c u) := by
  unfold updateBook
  rw [hf]

lemma updateBook_of_none (lib : Library) (a : String) (u : BookUpdates)
    (hf : lib.books.find? (fun b => b.asin = a) = none) :
    updateBook lib a u = Except.error "指定された書籍が見つかりません" := by
  unfold updateBook
  rw [hf]

lemma nodup_setFirst_applyUpdates (l : List Book) (a : String)
    (u : BookUpdates) (hnd : (l.map (fun b => b.asin)).Nodup)
    (hu : ∀ s, u.asin = some s → s = a ∨ s ∉ l.map (fun b => b.asin)) :
    ((setFirstByAsin l a (fun c => applyUpdates c u)).map
      (fun b => b.asin)).Nodup := by
  induction l with
  | nil => simp [setFirstByAsin]
  | cons b rest ih =>
      simp only [List.map_cons, List.nodup_cons] at hnd
      obtain ⟨hb, hr⟩ := hnd
      by_cases hba : b.asin = a
      · rw [setFirstByAsin_cons_pos _ _ _ _ hba, List.map_cons,
          List.nodup_cons]
        refine ⟨?_, hr⟩
        cases hus : u.asin with
        | none =>
            have hnew : (applyUpdates b u).asin = b.asin := by
              simp [applyUpdates, hus]
            rw [hnew]; exact hb
        | some s =>
            have hnew : (applyUpdates b u).asin = s := by
              simp [applyUpdates, hus]
            rw [hnew]
            rcases hu s hus with h | h
            · subst h; rw [← hba]; exact hb
            · rw [List.map_cons] at h
              intro hc
              exact h (List.mem_cons_of_mem _ hc)
      · rw [setFirstByAsin_cons_neg _ _ _ _ hba, List.map_cons,
          List.nodup_cons]
        constructor
        · intro hc
          rcases mem_map_asin_setFirst rest a _ _ hc with h | ⟨c, hcmem, hca, heq⟩
          · exact hb h
          · cases hus : u.asin with
            | none =>
                have hnew : (applyUpdates c u).asin = c.asin := by
                  simp [applyUpdates, hus]
                rw [hnew] at heq
                exact hba (heq ▸ hca)
            | some s =>
                have hnew : (applyUpdates c u).asin = s := by
                  simp [applyUpdates, hus]
                rw [hnew] at heq
                rcases hu s hus with h | h
                · exact hba (heq ▸ h)
                · rw [List.map_cons] at h
                  exact h (heq ▸ List.mem_cons_self _ _)
        · refine ih hr ?_
          intro s hus
          rcases hu s hus with h | h
          · exact Or.inl h
          · refine Or.inr ?_
            intro hc
            rw [List.map_cons] at h
            exact h (List.mem_cons_of_mem _ hc)

lemma removeFirstByAsin_sublist (l : List Book) (a : String) :
    (removeFirstByAsin l a).Sublist l := by
  induction l with
  | nil => simp [removeFirstByAsin]
  | cons b rest ih =>
      by_cases hba : b.asin = a
      · have heq : removeFirstByAsin (b :: rest) a = rest := by
          simp [removeFirstByAsin, hba]
        rw [heq]
        exact List.sublist_cons_self b rest
      · have heq : removeFirstByAsin (b :: rest) a =
            b :: removeFirstByAsin rest a := by
          simp [removeFirstByAsin, hba]
        rw [heq]
        exact ih.cons₂ b

/-! ## Claim C1 -/

/-- Claim C1 counterexample: importSelectedBooks checks incoming asins only
against the pre-existing books (the `existingASINs` set is never extended
inside the loop), so an input batch holding the same fresh asin twice appends
two records with equal keys, breaking uniqueness. -/
theorem claim_C1_counterexample :
    ¬ asinsNodup (importSelectedBooks lib0 [k0, k0] 0) := by
  intro h
  unfold asinsNodup at h
  have heq : (importSelectedBooks lib0 [k0, k0] 0).books.map
      (fun b => b.asin) = ["AAAAAAAAAA", "AAAAAAAAAA"] := rfl
  rw [heq] at h
  simp at h

/-- Claim C1 as amended: starting from a library with pairwise-distinct asin
keys, every mutating operation preserves distinctness, provided the
importSelectedBooks input batch itself has pairwise-distinct asins, and the
updateBook updates object does not set asin to a key held by a different
book.  (The unrestricted claim fails: see the counterexample, and an
updateBook whose updates carry another book's asin likewise duplicates a
key.) -/
theorem claim_C1_key_uniqueness (lib : Library) (h : asinsNodup lib) :
    (∀ bd now lib' b, addBookManually lib bd now = Except.ok (lib', b) →
        asinsNodup lib') ∧
    (∀ ks now, asinsNodup (importFromKindle lib ks now).1) ∧
    (∀ sel now, (sel.map (fun k => k.asin)).Nodup →
        asinsNodup (importSelectedBooks lib sel now)) ∧
    (∀ a u lib' b,
        (∀ s, u.asin = some s → s = a ∨ s ∉ lib.books.map (fun c => c.asin)) →
        updateBook lib a u = Except.ok (lib', b) → asinsNodup lib') ∧
    (∀ a hd lib', deleteBook lib a hd = Except.ok lib' → asinsNodup lib') := by
  have h' : (lib.books.map (fun b => b.asin)).Nodup := h
  refine ⟨?_, ?_, ?_, ?_, ?_⟩
  · intro bd now lib' b hok
    cases hasin : bd.asin with
    | none => simp [addBookManually, hasin] at hok
    | some a =>
        by_cases hv : isValidASIN a = true
        · by_cases hdup : a ∈ lib.books.map (fun c => c.asin)
          · have hf := (find?_asin_isSome lib.books a).mpr hdup
            simp [addBookManually, hasin, hv, hf] at hok
          · have hf : (lib.books.find? (fun c => c.asin = a)).isSome = false := by
              rw [Bool.eq_false_iff]
              exact fun hc => hdup ((find?_asin_isSome _ _).mp hc)
            simp only [addBookManually, hasin, hv, Bool.not_true, hf,
              Bool.false_eq_true, if_false, ite_false, ite_true,
              Except.ok.injEq, Prod.mk.injEq] at hok
            obtain ⟨h1, _⟩ := hok
            subst h1
            unfold asinsNodup
            simp only [List.map_append, List.map_cons, List.map_nil]
            exact nodup_append_singleton _ _ h' hdup
        · have hv' : isValidASIN a = false := by
            rw [Bool.eq_false_iff]; exact hv
          simp [addBookManually, hasin, hv'] at hok
  · intro ks now
    unfold asinsNodup
    rw [importFromKindle_books]
    exact importLoop_nodup ks (lib.books, initImportResults ks) now h'
  · intro sel now hsel
    unfold asinsNodup
    rw [importSelectedBooks_books, List.map_append, List.map_map]
    have hcomp :
        ((fun b => b.asin) ∘ (fun k => mkImportedBook k now)) =
          (fun (k : KindleBook) => k.asin) := rfl
    rw [hcomp]
    refine h'.append ?_ ?_
    · exact ((List.filter_sublist sel).map _).nodup hsel
    · intro x hx1 hx2
      obtain ⟨k, hk, rfl⟩ := List.mem_map.mp hx2
      obtain ⟨hksel, hkp⟩ := List.mem_filter.mp hk
      have : (lib.books.map (fun b => b.asin)).contains k.asin = false := by
        simpa using hkp
      have hnot : k.asin ∉ lib.books.map (fun b => b.asin) := by
        simpa using this
      exact hnot hx1
  · intro a u lib' b hu hok
    cases hf : lib.books.find? (fun c => c.asin = a) with
    | none => rw [updateBook_of_none lib a u hf] at hok; cases hok
    | some c =>
        rw [updateBook_of_found lib a u c hf] at hok
        simp only [Except.ok.injEq, Prod.mk.injEq] at hok
        obtain ⟨h1, _⟩ := hok
        subst h1
        exact nodup_setFirst_applyUpdates lib.books a u h' hu
  · intro a hd lib' hok
    by_cases hn : (lib.books.find? (fun c => c.asin = a)).isNone = true
    · simp [deleteBook, hn] at hok
    · cases hd with
      | true =>
          simp only [deleteBook, hn, Bool.false_eq_true, if_false, ite_false,
            ite_true, if_true, Except.ok.injEq] at hok
          subst hok
          unfold asinsNodup
          exact ((removeFirstByAsin_sublist lib.books a).map _).nodup h'
      | false =>
          simp only [deleteBook, hn, Bool.false_eq_true, if_false, ite_false,
            ite_true, if_true, Except.ok.injEq] at hok
          subst hok
          exact h

/-- Witness for claim C1 (amended) at concrete inputs. -/
theorem claim_C1_witness : asinsNodup (importSelectedBooks lib0 [k0] 0) :=
  (claim_C1_key_uniqueness lib0 (by unfold asinsNodup; simp [lib0])).2.2.1
    [k0] 0 (by simp)

/-! ## Claim C2 -/

/-- Claim C2: importFromKindle performs a deduplicated merge.  Whole-run
facts: every incoming asin occurs exactly once in the resulting books list
(an existing record is never duplicated; a fresh record is appended exactly
once even when the input repeats it, because the loop's `find` sees books
pushed earlier in the same call), and every resulting record whose asin was
not in the library carries source 'kindle_import'.  Per-step facts, at the
books list current when a record is processed: a record whose asin is found
never appends (the list keeps its length — the matching record is overwritten
in title, authors, acquiredTime, readStatus and productImage exactly when
shouldUpdateBook holds, and is untouched otherwise), and a record whose asin
is not found appends exactly the one imported record. -/
theorem claim_C2_import_merge (lib : Library) (ks : List KindleBook)
    (now : Int) (hnd : (lib.books.map (fun b => b.asin)).Nodup) :
    (∀ k ∈ ks,
      (((importFromKindle lib ks now).1.books).filter
          (fun b => b.asin = k.asin)).length = 1) ∧
    (∀ b ∈ (importFromKindle lib ks now).1.books,
      b.asin ∉ lib.books.map (fun c => c.asin) → b.source = "kindle_import") ∧
    (∀ (books : List Book) (res : ImportResults) (k : KindleBook),
      books.find? (fun b => b.asin = k.asin) = none →
        (importStep books res k now).1 = books ++ [mkImportedBook k now] ∧
        (mkImportedBook k now).source = "kindle_import") ∧
    (∀ (books : List Book) (res : ImportResults) (k : KindleBook) (e : Book),
      books.find? (fun b => b.asin = k.asin) = some e →
        (importStep books res k now).1.length = books.length ∧
        (shouldUpdateBook e k = true →
          (importStep books res k now).1 =
            setFirstByAsin books k.asin (fun b => applyKindleUpdate b k)) ∧
        (shouldUpdateBook e k = false →
          (importStep books res k now).1 = books)) := by
  refine ⟨?_, ?_, ?_, ?_⟩
  · intro k hk
    rw [importFromKindle_books]
    exact count_filter_asin_eq_one _ _
      (importLoop_nodup ks (lib.books, initImportResults ks) now hnd)
      (importLoop_mem_of_input ks (lib.books, initImportResults ks) now k hk)
  · intro b hb
    rw [importFromKindle_books] at hb
    intro hnotin
    rcases importLoop_source_inv (lib.books.map (fun c => c.asin)) ks
        (lib.books, initImportResults ks) now
        (fun c hc => Or.inl (List.mem_map_of_mem _ hc)) b hb with
      hmem | hsrc
    · exact absurd hmem hnotin
    · exact hsrc
  · intro books res k hf
    exact ⟨by rw [importStep_of_none books res k now hf], rfl⟩
  · intro books res k e hf
    refine ⟨?_, ?_, ?_⟩
    · rw [importStep_of_found books res k now e hf]
      by_cases hsu : shouldUpdateBook e k = true
      · rw [if_pos hsu]
        exact setFirstByAsin_length _ _ _
      · rw [if_neg hsu]
    · intro hsu
      rw [importStep_of_found books res k now e hf, if_pos hsu]
    · intro hsu
      rw [importStep_of_found books res k now e hf]
      rw [if_neg (by rw [hsu]; exact Bool.false_ne_true)]

/-- Witness for claim C2 at concrete inputs: importing a record whose asin
already exists leaves exactly one record with that key. -/
theorem claim_C2_witness :
    (((importFromKindle lib2 [k0] 7).1.books).filter
        (fun b => b.asin = k0.asin)).length = 1 :=
  (claim_C2_import_merge lib2 [k0] 7 (by decide)).1 k0 (by simp)

/-! ## Claim C4 -/

lemma removeFirstStr_of_not_mem (l : List String) (d : String) (h : d ∉ l) :
    removeFirstStr l d = l := by
  induction l with
  | nil => rfl
  | cons y ys ih =>
      have hy : ¬ y = d := fun hc => h (hc ▸ List.mem_cons_self _ _)
      have hys : d ∉ ys := fun hc => h (List.mem_cons_of_mem _ hc)
      simp [removeFirstStr, hy, ih hys]

lemma removeFirstStr_append_self (l : List String) (d : String) (h : d ∉ l) :
    removeFirstStr (l ++ [d]) d = l := by
  induction l with
  | nil => simp [removeFirstStr]
  | cons y ys ih =>
      have hy : ¬ y = d := fun hc => h (hc ▸ List.mem_cons_self _ _)
      have hys : d ∉ ys := fun hc => h (List.mem_cons_of_mem _ hc)
      simp [removeFirstStr, hy, ih hys]

lemma removeFirstStr_append_left (pre rest : List String) (d : String)
    (h : d ∉ pre) : removeFirstStr (pre ++ d :: rest) d = pre ++ rest := by
  induction pre with
  | nil => simp [removeFirstStr]
  | cons p ps ih =>
      have hp : ¬ p = d := fun hc => h (hc ▸ List.mem_cons_self _ _)
      have hps : d ∉ ps := fun hc => h (List.mem_cons_of_mem _ hc)
      simp [removeFirstStr, hp, ih hps]

lemma count_removeFirstStr_eq_zero (l : List String) (d : String)
    (h : l.count d ≤ 1) : (removeFirstStr l d).count d = 0 := by
  induction l with
  | nil => rfl
  | cons y ys ih =>
      by_cases hy : y = d
      · subst hy
        rw [List.count_cons_self] at h
        have : ys.count y = 0 := by omega
        simpa [removeFirstStr] using this
      · rw [List.count_cons_of_ne (fun hc => hy hc.symm)] at h
        simp [removeFirstStr, hy,
          List.count_cons_of_ne (fun hc => hy hc.symm), ih h]

lemma mem_removeFirstStr (l : List String) (d t : String) (hne : t ≠ d)
    (h : t ∈ l) : t ∈ removeFirstStr l d := by
  induction l with
  | nil => cases h
  | cons y ys ih =>
      by_cases hy : y = d
      · have hty : t ≠ y := fun hc => hne (hc.trans hy)
        have : t ∈ ys := by
          rcases List.mem_cons.mp h with hc | hc
          · exact absurd hc hty
          · exact hc
        simpa [removeFirstStr, hy] using this
      · rcases List.mem_cons.mp h with hc | hc
        · simp [removeFirstStr, hy, hc]
        · simp [removeFirstStr, hy, ih hc]

lemma insertBeforeFirst_split (l : List String) (t d : String) (h : t ∈ l) :
    ∃ pre post, l = pre ++ t :: post ∧
      insertBeforeFirst l t d = pre ++ d :: t :: post := by
  induction l with
  | nil => cases h
  | cons y ys ih =>
      by_cases hyt : y = t
      · subst hyt
        exact ⟨[], ys, rfl, by simp [insertBeforeFirst]⟩
      · have hty : t ∈ ys := by
          rcases List.mem_cons.mp h with hc | hc
          · exact absurd hc.symm hyt
          · exact hc
        obtain ⟨pre, post, h1, h2⟩ := ih hty
        exact ⟨y :: pre, post, by simp [h1],
          by simp [insertBeforeFirst, hyt, h2]⟩

lemma insert_after_remove (o2 : List String) (d t : String)
    (hd : o2.count d = 0) (htm : t ∈ o2) :
    (insertBeforeFirst o2 t d).count d = 1 ∧
    (∃ pre post, insertBeforeFirst o2 t d = pre ++ d :: t :: post) ∧
    removeFirstStr (insertBeforeFirst o2 t d) d = o2 := by
  obtain ⟨pre, post, hsplit, hins⟩ := insertBeforeFirst_split o2 t d htm
  subst hsplit
  have hsum : pre.count d + (t :: post).count d = 0 := by
    rw [← List.count_append]
    exact hd
  have hdpre : d ∉ pre := by
    intro hc
    have h1 : 0 < pre.count d := List.count_pos_iff.mpr hc
    omega
  have hdpost : (t :: post).count d = 0 := by omega
  refine ⟨?_, ⟨pre, post, hins⟩, ?_⟩
  · rw [hins, List.count_append, List.count_cons_self,
      List.count_eq_zero.mpr hdpre]
    have : (t :: post).count d = 0 := hdpost
    omega
  · rw [hins, removeFirstStr_append_left pre (t :: post) d hdpre]

/-- Claim C4 counterexample: a custom-order list already holding the dragged
key twice keeps both copies (only the first occurrence is spliced out before
re-insertion), so the result does not contain the dragged key exactly once. -/
theorem claim_C4_counterexample :
    reorderBooks ["D", "D", "T"] [] "D" "T" = ["D", "D", "T"] ∧
    ¬ ((["D", "D", "T"] : List String).count "D" = 1) := by
  refine ⟨rfl, ?_⟩
  decide

/-- Claim C4 as amended: for every custom-order list containing targetASIN in
which draggedASIN occurs at most once (every well-formed order list has
distinct keys), reorderBooks is a single-element move: the result holds
draggedASIN exactly once, immediately before targetASIN, and deleting
draggedASIN from the result gives the original list minus draggedASIN — the
other keys keep their relative order. -/
theorem claim_C4_reorder_move (order filtered : List String) (d t : String)
    (ht : t ∈ order) (hne : d ≠ t) (hcount : order.count d ≤ 1) :
    (reorderBooks order filtered d t).count d = 1 ∧
    (∃ pre post, reorderBooks order filtered d t = pre ++ d :: t :: post) ∧
    removeFirstStr (reorderBooks order filtered d t) d =
      removeFirstStr order d := by
  have hnil : order ≠ [] := List.ne_nil_of_mem ht
  have hisEmpty : order.isEmpty = false := by
    cases order
    · exact absurd rfl hnil
    · rfl
  by_cases hdm : d ∈ order
  · have hcontains : order.contains d = true := by simpa using hdm
    have hred : reorderBooks order filtered d t =
        insertBeforeFirst (removeFirstStr order d) t d := by
      simp only [reorderBooks, hisEmpty, Bool.false_eq_true, if_false,
        hcontains, if_true]
    rw [hred]
    have h0 : (removeFirstStr order d).count d = 0 :=
      count_removeFirstStr_eq_zero order d hcount
    have htm : t ∈ removeFirstStr order d :=
      mem_removeFirstStr order d t (Ne.symm hne) ht
    exact insert_after_remove _ d t h0 htm
  · have hcontains : order.contains d = false := by
      rw [Bool.eq_false_iff]
      intro hc
      exact hdm (by simpa using hc)
    have hrm : removeFirstStr (order ++ [d]) d = order :=
      removeFirstStr_append_self order d hdm
    have hred : reorderBooks order filtered d t =
        insertBeforeFirst order t d := by
      simp only [reorderBooks, hisEmpty, Bool.false_eq_true, if_false,
        hcontains, if_true, hrm]
    rw [hred]
    have h0 : order.count d = 0 := List.count_eq_zero.mpr hdm
    obtain ⟨c1, c2, c3⟩ := insert_after_remove order d t h0 ht
    exact ⟨c1, c2, by rw [c3, removeFirstStr_of_not_mem order d hdm]⟩

/-- Witness for claim C4 (amended) at concrete inputs. -/
theorem claim_C4_witness :
    (reorderBooks ["A", "T"] [] "D" "T").count "D" = 1 ∧
    (∃ pre post, reorderBooks ["A", "T"] [] "D" "T" =
      pre ++ "D" :: "T" :: post) ∧
    removeFirstStr (reorderBooks ["A", "T"] [] "D" "T") "D" =
      removeFirstStr ["A", "T"] "D" :=
  claim_C4_reorder_move ["A", "T"] [] "D" "T" (by decide) (by decide)
    (by decide)

/-! ## Claim C6 -/

lemma jsOrStr_empty_default (x : String) : jsOrStr x "" = x := by
  unfold jsOrStr
  split
  · rename_i h; exact h.symm
  · rfl

lemma jsOrStr_of_ne (x d : String) (h : x ≠ "") : jsOrStr x d = x := by
  unfold jsOrStr
  rw [if_neg h]

lemma jsOrInt_of_ne (x d : Int) (h : x ≠ 0) : jsOrInt x d = x := by
  unfold jsOrInt
  rw [if_neg h]

lemma exportBooks_fold (notes : String → Option Note) (now : Int) :
    ∀ (books : List Book) (m : List (String × ExportBook)),
    (∀ b ∈ books, b.asin ≠ "") →
    (∀ b ∈ books, ∀ p ∈ m, p.1 ≠ b.asin) →
    (books.map (fun b => b.asin)).Nodup →
    books.foldl
      (fun m b =>
        if b.asin = "" then m
        else objInsert m b.asin (exportBookOf notes now b)) m
      = m ++ books.map (fun b => (b.asin, exportBookOf notes now b)) := by
  intro books
  induction books with
  | nil => intro m _ _ _; simp
  | cons b bs ih =>
      intro m hne hdis hnd
      simp only [List.foldl_cons]
      have hb := hne b (List.mem_cons_self _ _)
      rw [if_neg hb]
      have hany : ¬ (m.any (fun p => p.1 = b.asin) = true) := by
        rw [List.any_eq_true]
        rintro ⟨p, hp, hpe⟩
        exact hdis b (List.mem_cons_self _ _) p hp
          (by simpa using hpe)
      have hobj : objInsert m b.asin (exportBookOf notes now b) =
          m ++ [(b.asin, exportBookOf notes now b)] := by
        unfold objInsert
        rw [if_neg hany]
      rw [hobj]
      simp only [List.map_cons, List.nodup_cons] at hnd
      obtain ⟨hbm, hnd'⟩ := hnd
      rw [ih (m ++ [(b.asin, exportBookOf notes now b)])
        (fun c hc => hne c (List.mem_cons_of_mem _ hc))
        ?_ hnd']
      · simp
      · intro c hc p hp
        rcases List.mem_append.mp hp with hp' | hp'
        · exact hdis c (List.mem_cons_of_mem _ hc) p hp'
        · rw [List.mem_singleton.mp hp']
          intro hcon
          simp only at hcon
          exact hbm (by rw [hcon]; exact List.mem_map_of_mem _ hc)

lemma roundtrip_books (books : List Book) (notes : String → Option Note)
    (now : Int) (hnd : (books.map (fun b => b.asin)).Nodup)
    (hfields : ∀ b ∈ books, b.asin ≠ "" ∧ b.readStatus ≠ "" ∧
      b.source ≠ "" ∧ b.acquiredTime ≠ 0 ∧ b.addedDate ≠ 0) :
    booksFromLibraryJson (exportBooks books notes now) = books := by
  have hexp : exportBooks books notes now =
      books.map (fun b => (b.asin, exportBookOf notes now b)) := by
    have := exportBooks_fold notes now books []
      (fun b hb => (hfields b hb).1) (fun _ _ p hp => absurd hp (List.not_mem_nil p))
      hnd
    simpa [exportBooks] using this
  rw [hexp]
  unfold booksFromLibraryJson
  rw [List.map_map]
  conv_rhs => rw [← List.map_id books]
  refine List.map_congr_left ?_
  intro b hb
  obtain ⟨ha, hrs, hsrc, hacq, hadd⟩ := hfields b hb
  cases b with
  | mk asin title authors acquiredTime readStatus productImage source addedDate =>
      simp only [Function.comp_apply, exportBookOf, id]
      congr 1 <;> first
        | exact jsOrStr_empty_default _
        | exact jsOrStr_of_ne _ _ (by simpa using hrs)
        | exact jsOrStr_of_ne _ _ (by simpa using hsrc)
        | exact jsOrInt_of_ne _ _ (by simpa using hacq)
        | exact jsOrInt_of_ne _ _ (by simpa using hadd)

/-- Claim C6 counterexample: exportUnifiedData normalizes falsy fields
(`readStatus || 'UNREAD'`), so a stored book with an empty readStatus does
not survive the round trip unchanged. -/
theorem claim_C6_counterexample :
    ¬ (booksFromLibraryJson
        (exportBooks [bookBadRS] (fun _ => none) 5)).Perm [bookBadRS] := by
  decide

/-- Claim C6 as amended: for every library whose books have pairwise-distinct
asins and whose per-book fields are not JS-falsy (non-empty asin, readStatus
and source; non-zero acquiredTime and addedDate — the `||` defaults of
exportUnifiedData rewrite falsy values), building the export books object and
loading it back through the library.json branch of initialize yields the same
records (the source recovers each asin by object identity, so each entry
keeps its own key). -/
theorem claim_C6_roundtrip (lib : Library) (notes : String → Option Note)
    (now : Int) (hnd : (lib.books.map (fun b => b.asin)).Nodup)
    (hfields : ∀ b ∈ lib.books, b.asin ≠ "" ∧ b.readStatus ≠ "" ∧
      b.source ≠ "" ∧ b.acquiredTime ≠ 0 ∧ b.addedDate ≠ 0) :
    (booksFromLibraryJson (exportBooks lib.books notes now)).Perm lib.books := by
  rw [roundtrip_books lib.books notes now hnd hfields]

/-- Witness for claim C6 (amended) at a concrete library. -/
theorem claim_C6_witness :
    (booksFromLibraryJson
      (exportBooks lib2.books (fun _ => none) 5)).Perm lib2.books :=
  claim_C6_roundtrip lib2 (fun _ => none) 5 (by decide) (by decide)

/-! ## Claim C3 -/

lemma findIdxRec_lt_length {α : Type} (p : α → Bool) :
    ∀ (l : List α) (i : Nat), findIdxRec p l = some i → i < l.length := by
  intro l
  induction l with
  | nil => intro i h; cases h
  | cons x xs ih =>
      intro i h
      unfold findIdxRec at h
      split at h
      · rw [Option.some.injEq] at h
        subst h
        simp
      · rw [Option.map_eq_some'] at h
        obtain ⟨j, hj, rfl⟩ := h
        have := ih j hj
        simp
        omega

lemma cmpLe_iff (co : List String) (a b : Book) :
    cmpLe co a b = true ↔ sortKey co a ≤ sortKey co b := by
  unfold cmpLe customOrderCompare jsIndexOf sortKey
  cases hfa : findIdxRec (fun x => x = a.asin) co with
  | none =>
      cases hfb : findIdxRec (fun x => x = b.asin) co with
      | none => simp
      | some j =>
          have hj := findIdxRec_lt_length _ co j hfb
          have h1 : ¬ ((j : Int) = -1) := by omega
          simp [h1]
          omega
  | some i =>
      have hi := findIdxRec_lt_length _ co i hfa
      have h0 : ¬ ((i : Int) = -1) := by omega
      cases hfb : findIdxRec (fun x => x = b.asin) co with
      | none =>
          simp [h0]
          omega
      | some j =>
          have hj := findIdxRec_lt_length _ co j hfb
          have h1 : ¬ ((j : Int) = -1) := by omega
          simp [h0, h1]

lemma insertCmp_eq_cons (co : List String) (x y : Book) (ys : List Book)
    (h : cmpLe co x y = true) :
    insertCmp co x (y :: ys) = x :: y :: ys := by
  simp [insertCmp, h]

lemma insertCmp_eq_skip (co : List String) (x y : Book) (ys : List Book)
    (h : ¬ cmpLe co x y = true) :
    insertCmp co x (y :: ys) = y :: insertCmp co x ys := by
  simp only [insertCmp]
  rw [if_neg h]

lemma insertCmp_perm (co : List String) (x : Book) (l : List Book) :
    (insertCmp co x l).Perm (x :: l) := by
  induction l with
  | nil => simp [insertCmp]
  | cons y ys ih =>
      by_cases h : cmpLe co x y = true
      · rw [insertCmp_eq_cons co x y ys h]
      · rw [insertCmp_eq_skip co x y ys h]
        exact (ih.cons y).trans (List.Perm.swap x y ys)

lemma sortCustom_perm (co : List String) (l : List Book) :
    (sortCustom co l).Perm l := by
  induction l with
  | nil => simp [sortCustom]
  | cons x xs ih =>
      have : sortCustom co (x :: xs) = insertCmp co x (sortCustom co xs) := rfl
      rw [this]
      exact (insertCmp_perm co x (sortCustom co xs)).trans (ih.cons x)

lemma insertCmp_cons_of_le (co : List String) (x : Book) (l : List Book)
    (h : ∀ y ∈ l, cmpLe co x y = true) : insertCmp co x l = x :: l := by
  cases l with
  | nil => rfl
  | cons y ys => exact insertCmp_eq_cons co x y ys (h y (List.mem_cons_self _ _))

lemma insertCmp_append_right (co : List String) (x : Book)
    (l₁ l₂ : List Book) (h : ∀ y ∈ l₁, ¬ cmpLe co x y = true) :
    insertCmp co x (l₁ ++ l₂) = l₁ ++ insertCmp co x l₂ := by
  induction l₁ with
  | nil => rfl
  | cons z zs ih =>
      rw [List.cons_append,
        insertCmp_eq_skip co x z _ (h z (List.mem_cons_self _ _)),
        ih (fun y hy => h y (List.mem_cons_of_mem _ hy)), List.cons_append]

lemma insertCmp_append_left (co : List String) (x : Book)
    (l₁ l₂ : List Book) (h : ∀ y ∈ l₂, cmpLe co x y = true) :
    insertCmp co x (l₁ ++ l₂) = insertCmp co x l₁ ++ l₂ := by
  induction l₁ with
  | nil =>
      simp only [List.nil_append]
      rw [insertCmp_cons_of_le co x l₂ h]
      rfl
  | cons z zs ih =>
      by_cases hz : cmpLe co x z = true
      · rw [List.cons_append, insertCmp_eq_cons co x z _ hz,
          insertCmp_eq_cons co x z zs hz]
        rfl
      · rw [List.cons_append, insertCmp_eq_skip co x z _ hz,
          insertCmp_eq_skip co x z zs hz, ih, List.cons_append]

lemma insertCmp_pairwise (co : List String) (x : Book) (l : List Book)
    (h : l.Pairwise (fun a b => sortKey co a ≤ sortKey co b)) :
    (insertCmp co x l).Pairwise (fun a b => sortKey co a ≤ sortKey co b) := by
  induction l with
  | nil => simp [insertCmp]
  | cons y ys ih =>
      rcases List.pairwise_cons.mp h with ⟨hy, hys⟩
      by_cases hxy : cmpLe co x y = true
      · rw [insertCmp_eq_cons co x y ys hxy, List.pairwise_cons]
        refine ⟨?_, h⟩
        intro z hz
        rcases List.mem_cons.mp hz with rfl | hz'
        · exact (cmpLe_iff co x z).mp hxy
        · exact le_trans ((cmpLe_iff co x y).mp hxy) (hy z hz')
      · rw [insertCmp_eq_skip co x y ys hxy, List.pairwise_cons]
        refine ⟨?_, ih hys⟩
        intro z hz
        rcases List.mem_cons.mp ((insertCmp_perm co x ys).mem_iff.mp hz)
          with heq | hz'
        · have hnot : ¬ (sortKey co x ≤ sortKey co y) :=
            fun hc => hxy ((cmpLe_iff co x y).mpr hc)
          rw [heq]
          omega
        · exact hy z hz'

lemma sortCustom_pairwise (co : List String) (l : List Book) :
    (sortCustom co l).Pairwise (fun a b => sortKey co a ≤ sortKey co b) := by
  induction l with
  | nil => simp [sortCustom]
  | cons x xs ih =>
      have : sortCustom co (x :: xs) = insertCmp co x (sortCustom co xs) := rfl
      rw [this]
      exact insertCmp_pairwise co x _ ih

lemma findIdxRec_eq_none_of_not_mem (co : List String) (a : String)
    (h : a ∉ co) : findIdxRec (fun x => x = a) co = none := by
  induction co with
  | nil => rfl
  | cons y ys ih =>
      have hy : ¬ (y = a) := fun hc => h (hc ▸ List.mem_cons_self _ _)
      have hys : a ∉ ys := fun hc => h (List.mem_cons_of_mem _ hc)
      simp [findIdxRec, hy, ih hys]

lemma findIdxRec_isSome_of_mem (co : List String) (a : String)
    (h : a ∈ co) : ∃ i, findIdxRec (fun x => x = a) co = some i := by
  induction co with
  | nil => cases h
  | cons y ys ih =>
      by_cases hy : y = a
      · exact ⟨0, by simp [findIdxRec, hy]⟩
      · have hys : a ∈ ys := by
          rcases List.mem_cons.mp h with hc | hc
          · exact absurd hc.symm hy
          · exact hc
        obtain ⟨i, hi⟩ := ih hys
        exact ⟨i + 1, by simp [findIdxRec, hy, hi]⟩

lemma sortKey_lt_of_contains (co : List String) (b : Book)
    (h : co.contains b.asin = true) : sortKey co b < co.length := by
  have hmem : b.asin ∈ co := by simpa using h
  obtain ⟨i, hi⟩ := findIdxRec_isSome_of_mem co b.asin hmem
  unfold sortKey
  rw [hi]
  exact findIdxRec_lt_length _ co i hi

lemma sortKey_eq_length_of_not_contains (co : List String) (b : Book)
    (h : ¬ co.contains b.asin = true) : sortKey co b = co.length := by
  have hmem : b.asin ∉ co := fun hc => h (by simpa using hc)
  unfold sortKey
  rw [findIdxRec_eq_none_of_not_mem co b.asin hmem]

lemma sortCustom_split (co : List String) (books : List Book) :
    sortCustom co books =
      sortCustom co (books.filter (fun b => co.contains b.asin)) ++
        books.filter (fun b => !co.contains b.asin) := by
  induction books with
  | nil => rfl
  | cons b bs ih =>
      have hcons : sortCustom co (b :: bs) =
          insertCmp co b (sortCustom co bs) := rfl
      rw [hcons, ih]
      by_cases hc : co.contains b.asin = true
      · rw [List.filter_cons_of_pos (by exact hc),
          List.filter_cons_of_neg (by simpa using hc)]
        have hA : ∀ y ∈ bs.filter (fun b => !co.contains b.asin),
            cmpLe co b y = true := by
          intro y hy
          have hyc : ¬ co.contains y.asin = true := by
            have := (List.mem_filter.mp hy).2
            simp at this
            simp [this]
          rw [cmpLe_iff]
          rw [sortKey_eq_length_of_not_contains co y hyc]
          exact le_of_lt (sortKey_lt_of_contains co b hc)
        rw [insertCmp_append_left co b _ _ hA]
        have hS : sortCustom co (b :: bs.filter (fun b => co.contains b.asin)) =
            insertCmp co b
              (sortCustom co (bs.filter (fun b => co.contains b.asin))) := rfl
        rw [hS]
      · rw [List.filter_cons_of_neg (by simpa using hc),
          List.filter_cons_of_pos (by simpa using hc)]
        have hS : ∀ y ∈ sortCustom co (bs.filter (fun b => co.contains b.asin)),
            ¬ cmpLe co b y = true := by
          intro y hy
          have hy' : y ∈ bs.filter (fun b => co.contains b.asin) :=
            (sortCustom_perm co _).mem_iff.mp hy
          have hyc : co.contains y.asin = true := by
            simpa using (List.mem_filter.mp hy').2
          rw [cmpLe_iff, sortKey_eq_length_of_not_contains co b hc]
          intro hle
          have := sortKey_lt_of_contains co y hyc
          omega
        rw [insertCmp_append_right co b _ _ hS]
        have hA : ∀ y ∈ bs.filter (fun b => !co.contains b.asin),
            cmpLe co b y = true := by
          intro y hy
          have hyc : ¬ co.contains y.asin = true := by
            have := (List.mem_filter.mp hy).2
            simp at this
            simp [this]
          rw [cmpLe_iff, sortKey_eq_length_of_not_contains co b hc,
            sortKey_eq_length_of_not_contains co y hyc]
        rw [insertCmp_cons_of_le co b _ hA]

/-- Claim C3: the custom-order comparator sort of renderStandardView places
the books whose asin occurs in the custom-order list first — sorted by their
index in that list — followed by the books absent from the list in the same
relative order they had before sorting.  (`sortCustom` is the unique stable,
comparator-sorted output ECMAScript guarantees for `Array.prototype.sort`;
the ordered segment is a permutation of the present books sorted by
`sortKey`, the key the comparator realizes.) -/
theorem claim_C3_custom_order (co : List String) (books : List Book) :
    sortCustom co books =
      sortCustom co (books.filter (fun b => co.contains b.asin)) ++
        books.filter (fun b => !co.contains b.asin) ∧
    (sortCustom co (books.filter (fun b => co.contains b.asin))).Pairwise
      (fun a b => sortKey co a ≤ sortKey co b) ∧
    (sortCustom co (books.filter (fun b => co.contains b.asin))).Perm
      (books.filter (fun b => co.contains b.asin)) :=
  ⟨sortCustom_split co books, sortCustom_pairwise co _, sortCustom_perm co _⟩
